import Mathlib

/-!
# msgpack-modelica: the adapter layer between msgpack-c and the Modelica runtime

Shallow embedding of `MessagePack/Resources/Include/msgpack-modelica.h`.

* C integers: `int` is 32 bits two's complement, `size_t` is 64 bits (LP64).
* Bytes are natural numbers below 256; a `const char *` argument is represented
  by the bytes that precede its terminating NUL.
* The msgpack-c library and the Modelica host runtime are not part of the
  repository.  The library is a parameter (`msgpack_lib`, `msgpack_pack_lib`)
  of every adapter function; `ref_lib` and `ref_pack_lib` are concrete
  instances used to evaluate the adapter on concrete files.
* A call of `ModelicaError` / `ModelicaFormatError` does not return to the
  adapter: it is the `Outcome.error` result.
-/

namespace MsgpackModelica

/-! ## C integer conversions -/

/-- Conversion of an integer value to C `int`: reduction modulo `2^32` into the
range `[-2^31, 2^31)` (what GCC and Clang define for a value out of range). -/
def to_int (n : Int) : Int := (n + 2147483648) % 4294967296 - 2147483648

/-- Conversion of an integer value to `size_t`: reduction modulo `2^64`. -/
def to_size_t (n : Int) : Nat := (n % 18446744073709551616).toNat

/-- Conversion of a C `bool` to `int`. -/
def bool_to_int (b : Bool) : Int := if b then 1 else 0

/-! ## The object model of msgpack-c (`msgpack/object.h`) -/

/-- The type tag `msgpack_object_type`. -/
inductive msgpack_object_type where
  | MSGPACK_OBJECT_NIL
  | MSGPACK_OBJECT_BOOLEAN
  | MSGPACK_OBJECT_POSITIVE_INTEGER
  | MSGPACK_OBJECT_NEGATIVE_INTEGER
  | MSGPACK_OBJECT_DOUBLE
  | MSGPACK_OBJECT_RAW
  | MSGPACK_OBJECT_ARRAY
  | MSGPACK_OBJECT_MAP
  deriving DecidableEq, Repr

/-- A decoded `msgpack_object`: the type tag together with the active member of
the union `via`.  `positive_integer` carries `via.u64`, `negative_integer`
carries `via.i64`, `raw` carries the `via.raw.size` bytes at `via.raw.ptr`. -/
inductive msgpack_object where
  | nil
  | boolean (b : Bool)
  | positive_integer (u64 : Nat)
  | negative_integer (i64 : Int)
  | double (bits : Nat)
  | raw (bytes : List Nat)
  | array (items : List msgpack_object)
  | map (kvs : List (msgpack_object × msgpack_object))

/-- The field `type` of a `msgpack_object`. -/
def msgpack_object.type : msgpack_object → msgpack_object_type
  | .nil => .MSGPACK_OBJECT_NIL
  | .boolean _ => .MSGPACK_OBJECT_BOOLEAN
  | .positive_integer _ => .MSGPACK_OBJECT_POSITIVE_INTEGER
  | .negative_integer _ => .MSGPACK_OBJECT_NEGATIVE_INTEGER
  | .double _ => .MSGPACK_OBJECT_DOUBLE
  | .raw _ => .MSGPACK_OBJECT_RAW
  | .array _ => .MSGPACK_OBJECT_ARRAY
  | .map _ => .MSGPACK_OBJECT_MAP

/-- Reading the union member `via.i64`.  For an integer object this is the
64-bit two's complement reading of the stored bits; for the other types the
result depends on the memory layout of the union and is not modelled. -/
def msgpack_object.via_i64 : msgpack_object → Option Int
  | .positive_integer u64 =>
      some (if u64 % 18446744073709551616 < 9223372036854775808
            then (u64 % 18446744073709551616 : Nat)
            else (u64 % 18446744073709551616 : Nat) - 18446744073709551616)
  | .negative_integer i64 => some i64
  | _ => none

/-- The result cell `msgpack_unpacked`: `zone` tells whether the zone pointer
is non-NULL, `data` is the object decoded last. -/
structure msgpack_unpacked where
  zone : Bool
  data : msgpack_object

/-- The cell after `msgpack_unpacked_init`. -/
def msgpack_unpacked_init : msgpack_unpacked := ⟨false, .nil⟩

/-- The unpacking side of the msgpack-c library, as the adapter calls it.
`msgpack_unpack_next result data len off` returns the `bool` result, the new
content of `*result` and the new content of `*off`; `msgpack_object_print o`
is the text the library writes to the stream for `o`. -/
structure msgpack_lib where
  msgpack_unpack_next : msgpack_unpacked → (Nat → Nat) → Nat → Nat → Bool × msgpack_unpacked × Nat
  msgpack_object_print : msgpack_object → List Nat

/-- The packing side of the msgpack-c library over a packer state `P`: each
call returns the library's `int` result and the new packer state. -/
structure msgpack_pack_lib (P : Type) where
  msgpack_pack_map : P → Int → Int × P
  msgpack_pack_array : P → Int → Int × P
  msgpack_pack_raw : P → Nat → Int × P
  msgpack_pack_raw_body : P → List Nat → Nat → Int × P

/-! ## Host runtime and operating system -/

/-- How a call of an adapter function ends: it returns a value, or the host
runtime's error function is called with a message (control does not come back
and the caller receives nothing), or the call has undefined behaviour. -/
inductive Outcome (α : Type) where
  | ret (a : α)
  | error (msg : String)
  | undefined (what : String)

/-- Stands for the message of the error the host raises inside
`ModelicaAllocateString` when it cannot allocate. -/
def host_allocation_error : String := "ModelicaAllocateString: allocation failed"

/-- `ModelicaAllocateString(len)`: a fresh string of `len` bytes (followed by
the terminator, which is left implicit).  When the host cannot allocate
(`alloc_ok = false`) it calls `ModelicaError` inside this call and does not
return. -/
def ModelicaAllocateString (alloc_ok : Bool) (len : Nat) : Outcome (List Nat) :=
  if alloc_ok then .ret (List.replicate len 0) else .error host_allocation_error

/-- The C string a returned `char *` designates: the adapter returns the bare
pointer and no length, so the host reads the bytes up to the first NUL (which
is the implicit terminator when the string holds no NUL before it). -/
def c_string (s : List Nat) : List Nat := s.takeWhile (fun b => b != 0)

/-- `ModelicaAllocateStringWithErrorReturn(len)`: as `ModelicaAllocateString`,
but NULL (`none`) when the host allocation fails (`alloc_ok = false`). -/
def ModelicaAllocateStringWithErrorReturn (alloc_ok : Bool) (len : Nat) : Option (List Nat) :=
  if alloc_ok then some (List.replicate len 0) else none

/-- `memcpy(dest, src, n)` on byte lists: the first `n` bytes of `dest` are
replaced by the first `n` bytes of `src`. -/
def memcpy (dest src : List Nat) (n : Nat) : List Nat := src.take n ++ dest.drop n

/-- `strlen`. -/
def strlen (str : List Nat) : Nat := str.length

/-- `fwrite(data, size, nmemb, stream)` on a stream given by the bytes written
so far: the number of items written and the new stream content.  When `size`
or `nmemb` is zero the call returns zero and leaves the stream unchanged
(ISO C); otherwise all items are written when the device accepts the write
(`io_ok`) and none when it does not. -/
def fwrite (data : List Nat) (size nmemb : Nat) (stream : List Nat) (io_ok : Bool) :
    Nat × List Nat :=
  if size = 0 ∨ nmemb = 0 then (0, stream)
  else if io_ok then (nmemb, stream ++ data.take (size * nmemb))
  else (0, stream)

/-- A file as the operating system presents it: its size and its bytes. -/
structure os_file where
  size : Nat
  bytes : Nat → Nat

/-- The outcome of the system calls for one path: what `open` finds (`none`
when it fails, else a descriptor and the file), whether `fstat` succeeds and
whether the kernel grants a mapping of non-zero length. -/
structure os_env where
  open_result : Option (Int × os_file)
  fstat_ok : Bool
  mmap_ok : Bool

/-- `mmap(0, len, PROT_READ, MAP_SHARED, fd, 0)`: fails with `EINVAL` when
`len` is zero (POSIX), and otherwise when the kernel refuses. -/
def mmap (env : os_env) (len : Nat) (f : os_file) : Option (Nat → Nat) :=
  if len = 0 then none else if env.mmap_ok then some f.bytes else none

/-! ## The adapter (`msgpack-modelica.h`) -/

/-- The struct `s_deserializer`. -/
structure s_deserializer where
  msg : msgpack_unpacked
  fd : Int
  ptr : Nat → Nat
  size : Nat

/-- The struct `s_stringstream`: `fout` holds the bytes written to the memory
stream since it was opened; `str` and `size` are the locations the memory
stream updates when it is flushed or closed (`none` is the null pointer). -/
structure s_stringstream where
  fout : List Nat
  str : Option (List Nat)
  size : Nat

/-- The struct `msgpack_sbuffer` as far as the adapter reads it. -/
structure msgpack_sbuffer where
  size : Nat
  data : List Nat

def msgpack_modelica_pack_map {P : Type} (lib : msgpack_pack_lib P) (packer : P) (len : Int) :
    Int × P :=
  lib.msgpack_pack_map packer len

def msgpack_modelica_pack_array {P : Type} (lib : msgpack_pack_lib P) (packer : P) (len : Int) :
    Int × P :=
  lib.msgpack_pack_array packer len

def msgpack_modelica_pack_string {P : Type} (lib : msgpack_pack_lib P) (packer : P)
    (str : List Nat) : Int × P :=
  let len := strlen str
  let r := lib.msgpack_pack_raw packer len
  if r.1 ≠ 0 then (1, r.2)
  else lib.msgpack_pack_raw_body r.2 str len

/-- The function `omc_sbuffer_to_file`: `fopen_ok` tells whether `fopen(file, "w")`
succeeds, `io_ok` whether the device accepts the write.  On return the result
is the content of the stream `fout`, which the function neither flushes nor
closes. -/
def omc_sbuffer_to_file (buffer : msgpack_sbuffer) (fopen_ok io_ok : Bool) :
    Outcome (List Nat) :=
  if ¬ fopen_ok then .error "Failed to open file %s for writing"
  else
    let w := fwrite buffer.data buffer.size 1 [] io_ok
    if 1 ≠ w.1 then .error "Failed to write to file %s"
    else .ret w.2

/-- The loop of `unpack_print`, with the number of iterations bounded by
`fuel`: `none` when the bound is reached before the library reports the end,
else the content of `fout` after the loop. -/
def unpack_print_loop (lib : msgpack_lib) (ptr : Nat → Nat) (size : Nat) :
    Nat → List Nat → msgpack_unpacked → Nat → Option (List Nat)
  | 0, _, _, _ => none
  | fuel + 1, fout, msg, off =>
    let r := lib.msgpack_unpack_next msg ptr size off
    if r.1 then
      let root := r.2.1.data
      unpack_print_loop lib ptr size fuel (fout ++ lib.msgpack_object_print root ++ [10]) r.2.1 r.2.2
    else some fout

def unpack_print (lib : msgpack_lib) (fuel : Nat) (fout : List Nat) (ptr : Nat → Nat)
    (size : Nat) : Option (List Nat) :=
  unpack_print_loop lib ptr size fuel fout msgpack_unpacked_init 0

/-- The function `msgpack_modelica_deserialize`; `none` when the decoding loop
needs more than `fuel` iterations.  The value returned is the C string at the
returned pointer `res`. -/
def msgpack_modelica_deserialize (lib : msgpack_lib) (fuel : Nat) (env : os_env)
    (alloc_ok : Bool) : Option (Outcome (List Nat)) :=
  match env.open_result with
  | none => some (.error "Failed to open file %s for reading: %s\n")
  | some (_, f) =>
    if ¬ env.fstat_ok then some (.error "stat %s failed: %s\n")
    else
      match mmap env f.size f with
      | none => some (.error "mmap(%s) failed: %s\n")
      | some mapped =>
        match unpack_print lib fuel [] mapped f.size with
        | none => none
        | some str =>
          let sz_str := str.length
          match ModelicaAllocateString alloc_ok sz_str with
          | .ret res => some (.ret (c_string (memcpy res str sz_str)))
          | .error msg => some (.error msg)
          | .undefined what => some (.undefined what)

def msgpack_modelica_new_deserialiser (env : os_env) : Outcome s_deserializer :=
  match env.open_result with
  | none => .error "Failed to open file %s for reading: %s\n"
  | some (fd, f) =>
    if ¬ env.fstat_ok then .error "fstat %s failed: %s\n"
    else
      match mmap env f.size f with
      | none => .error "mmap(%s) failed: %s\n"
      | some mapped => .ret ⟨msgpack_unpacked_init, fd, mapped, f.size⟩

/-- The function `msgpack_modelica_unpack_next`: the `int` result, `*newoffset`
and the handle after the call. -/
def msgpack_modelica_unpack_next (lib : msgpack_lib) (deserializer : s_deserializer)
    (offset : Int) : Int × Int × s_deserializer :=
  let off := to_size_t offset
  let r := lib.msgpack_unpack_next deserializer.msg deserializer.ptr deserializer.size off
  let res := bool_to_int r.1
  (res, to_int r.2.2, { deserializer with msg := r.2.1 })

/-- What `msgpack_modelica_unpack_int` and `msgpack_modelica_unpack_string`
hand back on return: the value (for a string, the C string at the returned
pointer), `*newoffset`, `*success` and the handle. -/
structure unpacked (α : Type) where
  value : α
  newoffset : Int
  success : Int
  handle : s_deserializer

def msgpack_modelica_unpack_int (lib : msgpack_lib) (deserializer : s_deserializer)
    (offset : Int) : Outcome (unpacked Int) :=
  let off := to_size_t offset
  let r := lib.msgpack_unpack_next deserializer.msg deserializer.ptr deserializer.size off
  let success := bool_to_int r.1
  if success = 0 then .error "Failed to unpack object\n"
  else
    let newoffset := to_int r.2.2
    let d := { deserializer with msg := r.2.1 }
    match d.msg.data with
    | .positive_integer u64 => .ret ⟨to_int u64, newoffset, success, d⟩
    | .negative_integer i64 => .ret ⟨to_int i64, newoffset, success, d⟩
    | _ => .error "Object is not of integer type\n"

def msgpack_modelica_unpack_string (lib : msgpack_lib) (deserializer : s_deserializer)
    (offset : Int) (alloc_ok : Bool) : Outcome (unpacked (List Nat)) :=
  let off := to_size_t offset
  let r := lib.msgpack_unpack_next deserializer.msg deserializer.ptr deserializer.size off
  let success := bool_to_int r.1
  if success = 0 then .error "Failed to unpack object\n"
  else
    let newoffset := to_int r.2.2
    let d := { deserializer with msg := r.2.1 }
    match d.msg.data with
    | .raw bytes =>
      let sz := bytes.length
      match ModelicaAllocateString alloc_ok sz with
      | .ret res => .ret ⟨c_string (memcpy res bytes sz), newoffset, success, d⟩
      | .error msg => .error msg
      | .undefined what => .undefined what
    | _ => .error "Object is not of integer type\n"

/-- The function `msgpack_modelica_get_unpacked_int`: `via.i64` of the object
in the handle, converted to `int`; `none` where `via.i64` is not modelled. -/
def msgpack_modelica_get_unpacked_int (deserializer : s_deserializer) : Option Int :=
  deserializer.msg.data.via_i64.map to_int

/-- The function `msgpack_modelica_unpack_any_to_stringstream`: the `int`
result, `*newoffset`, and the handle and the sink after the call. -/
def msgpack_modelica_unpack_any_to_stringstream (lib : msgpack_lib)
    (deserializer : s_deserializer) (st : s_stringstream) (offset : Int) :
    Int × Int × s_deserializer × s_stringstream :=
  let off := to_size_t offset
  let r := lib.msgpack_unpack_next deserializer.msg deserializer.ptr deserializer.size off
  let d := { deserializer with msg := r.2.1 }
  if r.1 then
    let root := d.msg.data
    (1, to_int r.2.2, d, { st with fout := st.fout ++ lib.msgpack_object_print root })
  else (0, to_int r.2.2, d, st)

def msgpack_modelica_new_stringstream : s_stringstream :=
  { str := none, size := 0, fout := [] }

/-- The call `memcpy(res, src, n)` where `res` may be the null pointer
(`none`): with a null destination the behaviour is undefined, also when `n` is
zero (ISO C requires valid pointers for every `n`); otherwise the destination
after the copy. -/
def memcpy_to (res : Option (List Nat)) (src : List Nat) (n : Nat) : Outcome (List Nat) :=
  match res with
  | some buf => .ret (memcpy buf src n)
  | none =>
    if n = 0 then .undefined "memcpy is called with the null pointer"
    else .undefined "memcpy writes through the null pointer"

/-- The function `msgpack_modelica_stringstream_get`, statement by statement:
`fclose` publishes the stream content in `str` and `size`; the string is
allocated; `memcpy` copies `size` bytes to the result; `str` is freed; only
then is the result tested; at last the sink is reset and reopened. -/
def msgpack_modelica_stringstream_get (st : s_stringstream) (alloc_ok : Bool) :
    Outcome (List Nat × s_stringstream) :=
  let st1 : s_stringstream := { st with str := some st.fout, size := st.fout.length }
  let res := ModelicaAllocateStringWithErrorReturn alloc_ok st1.size
  match memcpy_to res (st1.str.getD []) st1.size with
  | .undefined what => .undefined what
  | .error msg => .error msg
  | .ret res1 =>
    if res.isNone then .error "Failed to allocate memory for stringstream\n"
    else .ret (res1, { str := none, size := 0, fout := [] })

def msgpack_modelica_stringstream_append (st : s_stringstream) (str : List Nat) :
    s_stringstream :=
  { st with fout := st.fout ++ str }

/-! ## A reference instance of the library

`ref_lib` follows msgpack-c 0.5 (the release that has `msgpack_pack_raw` and
`MSGPACK_OBJECT_RAW`): the wire format of nil, booleans, integers, raw
strings, arrays and maps, the decoder's stack of open containers with its
depth limit of 32, and the text of `msgpack_object_print`.  Floating point is
left out: the decoder rejects the `float` and `double` formats. -/

/-- Big-endian value of the `n` bytes of `data` starting at `off`. -/
def be_read (data : Nat → Nat) : Nat → Nat → Nat
  | _, 0 => 0
  | off, n + 1 => data off % 256 * 256 ^ n + be_read data (off + 1) n

/-- The `n` bytes of `data` starting at `off`. -/
def bytes_at (data : Nat → Nat) (off n : Nat) : List Nat :=
  (List.range n).map (fun i => data (off + i))

/-- The integer object for the two's complement reading of a `bits`-bit field:
non-negative values are typed as positive integers, as in msgpack-c. -/
def ref_signed (bits x : Nat) : msgpack_object :=
  if x < 2 ^ (bits - 1) then .positive_integer x else .negative_integer ((x : Int) - 2 ^ bits)

/-- What one header of the wire format announces. -/
inductive ref_token where
  | value (v : msgpack_object)
  | array_header (n : Nat)
  | map_header (n : Nat)

/-- A fixed-width field of `n` bytes after the type byte at `off`. -/
def ref_field (data : Nat → Nat) (len off n : Nat) (k : Nat → ref_token) :
    Option (ref_token × Nat) :=
  if off + 1 + n ≤ len then some (k (be_read data (off + 1) n), off + 1 + n) else none

/-- A raw string whose length field has `n` bytes after the type byte. -/
def ref_raw (data : Nat → Nat) (len off n : Nat) : Option (ref_token × Nat) :=
  if off + 1 + n ≤ len then
    let l := be_read data (off + 1) n
    if off + 1 + n + l ≤ len then
      some (.value (.raw (bytes_at data (off + 1 + n) l)), off + 1 + n + l)
    else none
  else none

/-- Reads the header at `off` (with `off < len`) and, for a scalar, its body. -/
def ref_read_token (data : Nat → Nat) (len off : Nat) : Option (ref_token × Nat) :=
  let b := data off % 256
  if b < 0x80 then some (.value (.positive_integer b), off + 1)
  else if b < 0x90 then some (.map_header (b - 0x80), off + 1)
  else if b < 0xa0 then some (.array_header (b - 0x90), off + 1)
  else if b < 0xc0 then
    if off + 1 + (b - 0xa0) ≤ len then
      some (.value (.raw (bytes_at data (off + 1) (b - 0xa0))), off + 1 + (b - 0xa0))
    else none
  else if b = 0xc0 then some (.value .nil, off + 1)
  else if b = 0xc2 then some (.value (.boolean false), off + 1)
  else if b = 0xc3 then some (.value (.boolean true), off + 1)
  else if b = 0xcc then ref_field data len off 1 (fun x => .value (.positive_integer x))
  else if b = 0xcd then ref_field data len off 2 (fun x => .value (.positive_integer x))
  else if b = 0xce then ref_field data len off 4 (fun x => .value (.positive_integer x))
  else if b = 0xcf then ref_field data len off 8 (fun x => .value (.positive_integer x))
  else if b = 0xd0 then ref_field data len off 1 (fun x => .value (ref_signed 8 x))
  else if b = 0xd1 then ref_field data len off 2 (fun x => .value (ref_signed 16 x))
  else if b = 0xd2 then ref_field data len off 4 (fun x => .value (ref_signed 32 x))
  else if b = 0xd3 then ref_field data len off 8 (fun x => .value (ref_signed 64 x))
  else if b = 0xda then ref_raw data len off 2
  else if b = 0xdb then ref_raw data len off 4
  else if b = 0xdc then ref_field data len off 2 .array_header
  else if b = 0xdd then ref_field data len off 4 .array_header
  else if b = 0xde then ref_field data len off 2 .map_header
  else if b = 0xdf then ref_field data len off 4 .map_header
  else if 0xe0 ≤ b then some (.value (.negative_integer ((b : Int) - 256)), off + 1)
  else none

/-- An open container on the decoder's stack: the number of elements (pairs)
still missing, the elements read so far and, for a map, the pending key. -/
inductive ref_frame where
  | array (count : Nat) (items : List msgpack_object)
  | map (count : Nat) (kvs : List (msgpack_object × msgpack_object))
      (key : Option msgpack_object)

/-- Hands a finished object to the innermost open container, closing every
container it completes: `Sum.inl root` when the top-level object is finished,
`Sum.inr stack` when more input is needed. -/
def ref_push : msgpack_object → List ref_frame → msgpack_object ⊕ List ref_frame
  | v, [] => .inl v
  | v, .array count items :: rest =>
    if count ≤ 1 then ref_push (.array (items ++ [v])) rest
    else .inr (.array (count - 1) (items ++ [v]) :: rest)
  | v, .map count kvs none :: rest => .inr (.map count kvs (some v) :: rest)
  | v, .map count kvs (some k) :: rest =>
    if count ≤ 1 then ref_push (.map (kvs ++ [(k, v)])) rest
    else .inr (.map (count - 1) (kvs ++ [(k, v)]) none :: rest)

/-- The decoder loop: one header per iteration, at most `fuel` iterations
(every iteration consumes at least one byte, so `len - off` are enough). -/
def ref_execute (data : Nat → Nat) (len : Nat) :
    Nat → Nat → List ref_frame → Option (msgpack_object × Nat)
  | 0, _, _ => none
  | fuel + 1, off, stack =>
    if len ≤ off then none
    else
      match ref_read_token data len off with
      | none => none
      | some (.value v, noff) =>
        match ref_push v stack with
        | .inl root => some (root, noff)
        | .inr stack1 => ref_execute data len fuel noff stack1
      | some (.array_header n, noff) =>
        if 32 ≤ stack.length then none
        else if n = 0 then
          match ref_push (.array []) stack with
          | .inl root => some (root, noff)
          | .inr stack1 => ref_execute data len fuel noff stack1
        else ref_execute data len fuel noff (.array n [] :: stack)
      | some (.map_header n, noff) =>
        if 32 ≤ stack.length then none
        else if n = 0 then
          match ref_push (.map []) stack with
          | .inl root => some (root, noff)
          | .inr stack1 => ref_execute data len fuel noff stack1
        else ref_execute data len fuel noff (.map n [] none :: stack)

/-- The library's `msgpack_unpacked_destroy`. -/
def msgpack_unpacked_destroy (result : msgpack_unpacked) : msgpack_unpacked :=
  if result.zone then ⟨false, .nil⟩ else result

/-- The library's `msgpack_unpack_next`. -/
def ref_unpack_next (result : msgpack_unpacked) (data : Nat → Nat) (len off : Nat) :
    Bool × msgpack_unpacked × Nat :=
  let result := msgpack_unpacked_destroy result
  if len ≤ off then (false, result, off)
  else
    match ref_execute data len (len - off) off [] with
    | none => (false, result, off)
    | some (v, noff) => (true, ⟨true, v⟩, noff)

/-- The bytes of an ASCII text. -/
def ascii (s : String) : List Nat := s.toList.map Char.toNat

mutual
/-- The library's `msgpack_object_print`. -/
def ref_object_print : msgpack_object → List Nat
  | .nil => ascii "nil"
  | .boolean b => if b then ascii "true" else ascii "false"
  | .positive_integer u64 => (Nat.toDigits 10 u64).map Char.toNat
  | .negative_integer i64 =>
    if i64 < 0 then 45 :: (Nat.toDigits 10 i64.natAbs).map Char.toNat
    else (Nat.toDigits 10 i64.natAbs).map Char.toNat
  | .double _ => []
  | .raw bytes => ascii "\"" ++ bytes ++ ascii "\""
  | .array items => ascii "[" ++ ref_print_items items ++ ascii "]"
  | .map kvs => ascii "\x7b" ++ ref_print_kvs kvs ++ ascii "\x7d"
/-- The elements of an array, separated by a comma and a blank. -/
def ref_print_items : List msgpack_object → List Nat
  | [] => []
  | [x] => ref_object_print x
  | x :: y :: rest => ref_object_print x ++ ascii ", " ++ ref_print_items (y :: rest)
/-- The pairs of a map, separated by a comma and a blank. -/
def ref_print_kvs : List (msgpack_object × msgpack_object) → List Nat
  | [] => []
  | [(k, v)] => ref_object_print k ++ ascii "=>" ++ ref_object_print v
  | (k, v) :: y :: rest =>
    ref_object_print k ++ ascii "=>" ++ ref_object_print v ++ ascii ", " ++ ref_print_kvs (y :: rest)
end

/-- The reference instance of the unpacking side. -/
def ref_lib : msgpack_lib := ⟨ref_unpack_next, ref_object_print⟩

/-- The packer of the reference instance: a `msgpack_sbuffer` whose storage
can grow to `limit` bytes. -/
structure ref_packer where
  data : List Nat
  limit : Nat

/-- The library's `msgpack_sbuffer_write`: `-1` when the buffer cannot grow. -/
def ref_sbuffer_write (pk : ref_packer) (buf : List Nat) : Int × ref_packer :=
  if pk.data.length + buf.length ≤ pk.limit then (0, { pk with data := pk.data ++ buf })
  else (-1, pk)

/-- Big-endian bytes of `x` in a field of `n` bytes. -/
def be_bytes : Nat → Nat → List Nat
  | 0, _ => []
  | n + 1, x => x / 256 ^ n % 256 :: be_bytes n x

def ref_pack_raw (pk : ref_packer) (l : Nat) : Int × ref_packer :=
  if l < 32 then ref_sbuffer_write pk [0xa0 + l]
  else if l < 65536 then ref_sbuffer_write pk (0xda :: be_bytes 2 l)
  else ref_sbuffer_write pk (0xdb :: be_bytes 4 l)

def ref_pack_raw_body (pk : ref_packer) (b : List Nat) (l : Nat) : Int × ref_packer :=
  ref_sbuffer_write pk (b.take l)

def ref_pack_array (pk : ref_packer) (n : Int) : Int × ref_packer :=
  let n := (n % 4294967296).toNat
  if n < 16 then ref_sbuffer_write pk [0x90 + n]
  else if n < 65536 then ref_sbuffer_write pk (0xdc :: be_bytes 2 n)
  else ref_sbuffer_write pk (0xdd :: be_bytes 4 n)

def ref_pack_map (pk : ref_packer) (n : Int) : Int × ref_packer :=
  let n := (n % 4294967296).toNat
  if n < 16 then ref_sbuffer_write pk [0x80 + n]
  else if n < 65536 then ref_sbuffer_write pk (0xde :: be_bytes 2 n)
  else ref_sbuffer_write pk (0xdf :: be_bytes 4 n)

/-- The library's `msgpack_pack_int` for a C `int` argument. -/
def ref_pack_int (pk : ref_packer) (d : Int) : Int × ref_packer :=
  if d < -32 then
    if d < -32768 then ref_sbuffer_write pk (0xd2 :: be_bytes 4 (d % 4294967296).toNat)
    else if d < -128 then ref_sbuffer_write pk (0xd1 :: be_bytes 2 (d % 65536).toNat)
    else ref_sbuffer_write pk (0xd0 :: be_bytes 1 (d % 256).toNat)
  else if d < 128 then ref_sbuffer_write pk [(d % 256).toNat]
  else if d < 256 then ref_sbuffer_write pk (0xcc :: be_bytes 1 d.toNat)
  else if d < 65536 then ref_sbuffer_write pk (0xcd :: be_bytes 2 d.toNat)
  else ref_sbuffer_write pk (0xce :: be_bytes 4 d.toNat)

/-- The reference instance of the packing side. -/
def ref_pack_lib : msgpack_pack_lib ref_packer :=
  ⟨ref_pack_map, ref_pack_array, ref_pack_raw, ref_pack_raw_body⟩

/-- The file with the given bytes. -/
def file_of (bytes : List Nat) : os_file := ⟨bytes.length, fun i => bytes.getD i 0⟩

/-- A handle on a mapped region with the given bytes. -/
def handle_of (bytes : List Nat) : s_deserializer :=
  ⟨msgpack_unpacked_init, 3, fun i => bytes.getD i 0, bytes.length⟩


/-! ## Notions used to state the properties -/

/-- The value returned by a call, when it returns. -/
def Outcome.returned {α : Type} : Outcome α → Option α
  | .ret a => some a
  | _ => none

/-- The integer value of an object of positive or negative integer type. -/
def msgpack_object.int_value : msgpack_object → Option Int
  | .positive_integer u64 => some u64
  | .negative_integer i64 => some i64
  | _ => none

/-- The region `data[0, len)` holds the bytes `c` from offset `off` on. -/
def holds_at (data : Nat → Nat) (len off : Nat) (c : List Nat) : Prop :=
  off + c.length ≤ len ∧ ∀ i, i < c.length → data (off + i) = c.getD i 0

/-- The bytes `c` are an encoding of the object `v` for the library: wherever a
region holds `c`, `msgpack_unpack_next` called at that offset reports an
object, leaves `v` in the result cell and moves the offset past `c`. -/
def encodes (lib : msgpack_lib) (c : List Nat) (v : msgpack_object) : Prop :=
  ∀ result data len off, holds_at data len off c →
    (lib.msgpack_unpack_next result data len off).1 = true ∧
    (lib.msgpack_unpack_next result data len off).2.1.data = v ∧
    (lib.msgpack_unpack_next result data len off).2.2 = off + c.length

/-- The library reports no object when the offset is at or past the end of
the region (the first test of msgpack-c's `msgpack_unpack_next`). -/
def stops_at_end (lib : msgpack_lib) : Prop :=
  ∀ result data len off, len ≤ off → (lib.msgpack_unpack_next result data len off).1 = false

/-- The bytes of a file made of the given encoded values, one after another. -/
def concat_chunks (items : List (List Nat × msgpack_object)) : List Nat :=
  (items.map Prod.fst).flatten

/-- Threading `msgpack_modelica_unpack_next`: `n` calls, the first at `offset`,
each next one at the `newoffset` of the previous one.  For every call: the
result, `newoffset` and the object left in the handle. -/
def unpack_next_thread (lib : msgpack_lib) :
    Nat → s_deserializer → Int → List (Int × Int × msgpack_object)
  | 0, _, _ => []
  | n + 1, d, offset =>
    let r := msgpack_modelica_unpack_next lib d offset
    (r.1, r.2.1, r.2.2.msg.data) :: unpack_next_thread lib n r.2.2 r.2.1

/-- One visit per encoded value, in encoding order: found, the offset that
follows the value, and the value. -/
def expected_visits : Nat → List (List Nat × msgpack_object) → List (Int × Int × msgpack_object)
  | _, [] => []
  | off, (c, v) :: rest =>
    (1, ((off + c.length : Nat) : Int), v) :: expected_visits (off + c.length) rest

/-- The dump of a sequence of values: the rendering of each followed by a
newline. -/
def dump_text (lib : msgpack_lib) (items : List (List Nat × msgpack_object)) : List Nat :=
  (items.map (fun cv => lib.msgpack_object_print cv.2 ++ [10])).flatten

/-- Appending the texts `ts` to a sink, one call of
`msgpack_modelica_stringstream_append` each. -/
def append_all (st : s_stringstream) (ts : List (List Nat)) : s_stringstream :=
  ts.foldl msgpack_modelica_stringstream_append st

/-- A mapped region of `2^31` bytes holding one raw string: the `raw 32` header
with length `2^31 - 5` followed by that many zero bytes. -/
def big_region : Nat → Nat :=
  fun i => if i = 0 then 0xdb else if i = 1 then 0x7f else if i < 4 then 0xff
    else if i = 4 then 0xfb else 0

/-- The raw string held by `big_region`. -/
def big_payload : List Nat := List.replicate 2147483643 0

/-- A handle on `big_region`. -/
def big_handle : s_deserializer := ⟨msgpack_unpacked_init, 3, big_region, 2147483648⟩

/-! ## C integer conversions: basic facts -/

theorem to_int_of_range (n : Int) (h1 : -2147483648 ≤ n) (h2 : n < 2147483648) :
    to_int n = n := by
  unfold to_int; omega

theorem to_int_range (n : Int) : -2147483648 ≤ to_int n ∧ to_int n < 2147483648 := by
  unfold to_int; omega

theorem to_size_t_of_nat (n : Nat) (h : n < 18446744073709551616) : to_size_t (n : Int) = n := by
  unfold to_size_t; omega

/-! ## Sequential decoding -/

theorem holds_at_append (data : Nat → Nat) (len off : Nat) (c rest : List Nat)
    (h : holds_at data len off (c ++ rest)) :
    holds_at data len off c ∧ holds_at data len (off + c.length) rest := by
  obtain ⟨hlen, hb⟩ := h
  rw [List.length_append] at hlen
  refine ⟨⟨by omega, fun i hi => ?_⟩, ⟨by omega, fun i hi => ?_⟩⟩
  · have := hb i (by rw [List.length_append]; omega)
    rw [this, List.getD_append _ _ _ _ hi]
  · have := hb (c.length + i) (by rw [List.length_append]; omega)
    rw [Nat.add_assoc, this, List.getD_append_right _ _ _ _ (by omega)]
    simp

theorem unpack_next_of_encodes (lib : msgpack_lib) (d : s_deserializer) (off : Nat)
    (c : List Nat) (v : msgpack_object) (henc : encodes lib c v)
    (hh : holds_at d.ptr d.size off c) (hoff : off < 18446744073709551616) :
    (msgpack_modelica_unpack_next lib d (off : Int)).1 = 1 ∧
    (msgpack_modelica_unpack_next lib d (off : Int)).2.1 = to_int ((off + c.length : Nat) : Int) ∧
    (msgpack_modelica_unpack_next lib d (off : Int)).2.2.msg.data = v ∧
    (msgpack_modelica_unpack_next lib d (off : Int)).2.2.ptr = d.ptr ∧
    (msgpack_modelica_unpack_next lib d (off : Int)).2.2.size = d.size := by
  obtain ⟨h1, h2, h3⟩ := henc d.msg d.ptr d.size off hh
  simp only [msgpack_modelica_unpack_next, to_size_t_of_nat off hoff, h1, h2, h3, bool_to_int]
  simp

theorem unpack_next_thread_visits (lib : msgpack_lib) (items : List (List Nat × msgpack_object)) :
    ∀ (d : s_deserializer) (off : Nat),
      (∀ cv ∈ items, encodes lib cv.1 cv.2) →
      holds_at d.ptr d.size off (concat_chunks items) →
      off + (concat_chunks items).length < 2147483648 →
      unpack_next_thread lib items.length d (off : Int) = expected_visits off items := by
  induction items with
  | nil => intro d off _ _ _; rfl
  | cons cv rest ih =>
    intro d off henc hh hsize
    obtain ⟨c, v⟩ := cv
    have hcat : concat_chunks ((c, v) :: rest) = c ++ concat_chunks rest := by
      simp [concat_chunks]
    rw [hcat] at hh hsize
    rw [List.length_append] at hsize
    obtain ⟨hc, hrest⟩ := holds_at_append _ _ _ _ _ hh
    obtain ⟨r1, r2, r3, r4, r5⟩ :=
      unpack_next_of_encodes lib d off c v (henc (c, v) (List.mem_cons_self _ _)) hc (by omega)
    have hto : to_int ((off + c.length : Nat) : Int) = ((off + c.length : Nat) : Int) :=
      to_int_of_range _ (by omega) (by omega)
    simp only [List.length_cons, unpack_next_thread, expected_visits]
    rw [r1, r2, r3, hto]
    rw [ih _ (off + c.length) (fun cv hcv => henc cv (List.mem_cons_of_mem _ hcv))
      (by rw [r4, r5]; exact hrest) (by omega)]

theorem expected_visits_last (items : List (List Nat × msgpack_object)) :
    ∀ (off : Nat) (r : Int × Int × msgpack_object),
      (expected_visits off items).getLast? = some r →
      r.2.1 = ((off + (concat_chunks items).length : Nat) : Int) := by
  induction items with
  | nil => intro off r h; simp [expected_visits] at h
  | cons cv rest ih =>
    intro off r h
    obtain ⟨c, v⟩ := cv
    have hcat : concat_chunks ((c, v) :: rest) = c ++ concat_chunks rest := by
      simp [concat_chunks]
    rw [hcat, List.length_append]
    cases rest with
    | nil =>
      simp [expected_visits] at h
      subst h
      simp [concat_chunks]
    | cons cv2 rest2 =>
      obtain ⟨c2, v2⟩ := cv2
      have h2 : (expected_visits (off + c.length) ((c2, v2) :: rest2)).getLast? = some r := by
        simpa [expected_visits, List.getLast?_cons_cons] using h
      rw [ih (off + c.length) r h2, Nat.add_assoc]

/-! ## The reference library decodes what the wire format prescribes -/

theorem ref_unpack_next_value (result : msgpack_unpacked) (data : Nat → Nat) (len off noff : Nat)
    (v : msgpack_object) (hlt : off < len)
    (htok : ref_read_token data len off = some (.value v, noff)) :
    ref_unpack_next result data len off = (true, ⟨true, v⟩, noff) := by
  obtain ⟨k, hk⟩ : ∃ k, len - off = k + 1 := ⟨len - off - 1, by omega⟩
  have hle : ¬ len ≤ off := by omega
  simp [ref_unpack_next, hk, ref_execute, htok, ref_push, hle]

theorem bytes_at_eq (data : Nat → Nat) (off : Nat) (p : List Nat)
    (h : ∀ i, i < p.length → data (off + i) = p.getD i 0) : bytes_at data off p.length = p := by
  apply List.ext_getElem
  · simp [bytes_at]
  · intro i h1 h2
    simp only [bytes_at, List.getElem_map, List.getElem_range]
    rw [h i h2, List.getD_eq_getElem _ _ h2]

/-- A positive fixnum: the byte `b < 128` encodes the positive integer `b`. -/
theorem encodes_fixint (b : Nat) (hb : b < 128) : encodes ref_lib [b] (.positive_integer b) := by
  intro result data len off hh
  obtain ⟨hlen, hbytes⟩ := hh
  have h0 : data off = b := by simpa using hbytes 0 (by simp)
  simp only [List.length_singleton] at hlen
  have htok : ref_read_token data len off = some (.value (.positive_integer b), off + 1) := by
    have hm : b % 256 = b := Nat.mod_eq_of_lt (by omega)
    simp [ref_read_token, h0, hm, hb]
  have := ref_unpack_next_value result data len off (off + 1) _ (by omega) htok
  simp [ref_lib, this]

/-- A fix raw: the byte `0xa0 + n` followed by `n < 32` bytes encodes the raw
string of these bytes. -/
theorem encodes_fixraw (p : List Nat) (hp : p.length < 32) :
    encodes ref_lib ((0xa0 + p.length) :: p) (.raw p) := by
  intro result data len off hh
  obtain ⟨hlen, hbytes⟩ := hh
  have h0 : data off = 0xa0 + p.length := by simpa using hbytes 0 (by simp)
  simp only [List.length_cons] at hlen
  have hbody : bytes_at data (off + 1) p.length = p := by
    apply bytes_at_eq
    intro i hi
    have := hbytes (i + 1) (by simp; omega)
    rw [Nat.add_assoc, Nat.add_comm 1 i, this]
    simp
  have htok : ref_read_token data len off =
      some (.value (.raw p), off + 1 + p.length) := by
    have hm : (0xa0 + p.length) % 256 = 0xa0 + p.length := Nat.mod_eq_of_lt (by omega)
    have h1 : ¬ (0xa0 + p.length < 0x80) := by omega
    have h2 : ¬ (0xa0 + p.length < 0x90) := by omega
    have h3 : ¬ (0xa0 + p.length < 0xa0) := by omega
    have h4 : 0xa0 + p.length < 0xc0 := by omega
    have h5 : off + 1 + p.length ≤ len := by omega
    simp only [ref_read_token, h0, hm, h1, h2, h3, h4, if_true, if_false, Nat.add_sub_cancel_left,
      hbody, h5]
  have := ref_unpack_next_value result data len off (off + 1 + p.length) _ (by omega) htok
  simp [ref_lib, this]
  omega

/-- A raw 32: the byte `0xdb`, the length in four bytes (big-endian) and the
bytes themselves encode the raw string of these bytes. -/
theorem encodes_raw32 (p : List Nat) (hp : p.length < 4294967296) :
    encodes ref_lib (0xdb :: (be_bytes 4 p.length ++ p)) (.raw p) := by
  intro result data len off hh
  obtain ⟨hlen, hbytes⟩ := hh
  have hl : (0xdb :: (be_bytes 4 p.length ++ p)).length = 5 + p.length := by
    simp [be_bytes]; omega
  rw [hl] at hlen hbytes
  have h0 : data off = 0xdb := by simpa using hbytes 0 (by omega)
  have h1 : data (off + 1) = p.length / 256 ^ 3 % 256 := by
    simpa [be_bytes] using hbytes 1 (by omega)
  have h2 : data (off + 1 + 1) = p.length / 256 ^ 2 % 256 := by
    simpa [be_bytes] using hbytes 2 (by omega)
  have h3 : data (off + 1 + 1 + 1) = p.length / 256 % 256 := by
    simpa [be_bytes] using hbytes 3 (by omega)
  have h4 : data (off + 1 + 1 + 1 + 1) = p.length % 256 := by
    simpa [be_bytes] using hbytes 4 (by omega)
  have hlenfield : be_read data (off + 1) 4 = p.length := by
    simp only [be_read, h1, h2, h3, h4]
    norm_num
    omega
  have hbody : bytes_at data (off + 1 + 4) p.length = p := by
    apply bytes_at_eq
    intro i hi
    have := hbytes (i + 5) (by omega)
    have e : off + 1 + 4 + i = off + (i + 5) := by omega
    rw [e, this]
    simp [be_bytes]
  have htok : ref_read_token data len off =
      some (.value (.raw p), off + 1 + 4 + p.length) := by
    have c1 : off + 1 + 4 ≤ len := by omega
    have c2 : off + 1 + 4 + p.length ≤ len := by omega
    simp [ref_read_token, h0, ref_raw, hlenfield, hbody, c1, c2]
  have := ref_unpack_next_value result data len off (off + 1 + 4 + p.length) _ (by omega) htok
  rw [hl]
  simp [ref_lib, this]
  omega

theorem getD_replicate_zero (n i : Nat) : (List.replicate n 0).getD i 0 = 0 := by
  rcases Nat.lt_or_ge i n with h | h
  · rw [List.getD_eq_getElem _ _ (by simpa using h)]; simp
  · rw [List.getD_eq_default _ _ (by simpa using h)]

theorem big_payload_length : big_payload.length = 2147483643 := List.length_replicate _ _

theorem big_region_holds_of (p : List Nat) (hp : p.length = 2147483643)
    (hz : ∀ i, p.getD i 0 = 0) :
    holds_at big_region 2147483648 0 (0xdb :: ([0x7f, 0xff, 0xff, 0xfb] ++ p)) := by
  constructor
  · simp [hp]
  · intro i hi
    match i with
    | 0 => simp [big_region]
    | 1 => simp [big_region]
    | 2 => simp [big_region]
    | 3 => simp [big_region]
    | 4 => simp [big_region]
    | j + 5 =>
      have e : (0xdb :: ([0x7f, 0xff, 0xff, 0xfb] ++ p)).getD (j + 5) 0 = p.getD j 0 := rfl
      rw [e, hz]
      simp [big_region]

theorem be_bytes_big : be_bytes 4 2147483643 = [0x7f, 0xff, 0xff, 0xfb] := by decide

/-! ## C1: sequential decode -/

/-- C1 (amended): when the mapped region of a handle is made of the encodings
of the values `v1 .. vn`, one after another, and is shorter than `2^31` bytes,
then calling `msgpack_modelica_unpack_next` at offset 0 and threading each
`newoffset` into the next call reports found (1) once per value, visits the
values in encoding order, returns after each value the offset that follows
it, and the `newoffset` returned for the last value is the file size. -/
theorem unpack_next_sequential (lib : msgpack_lib) (d : s_deserializer)
    (items : List (List Nat × msgpack_object))
    (henc : ∀ cv ∈ items, encodes lib cv.1 cv.2)
    (hfile : holds_at d.ptr d.size 0 (concat_chunks items))
    (hsize : d.size = (concat_chunks items).length)
    (hint : d.size < 2147483648) :
    unpack_next_thread lib items.length d 0 = expected_visits 0 items ∧
    ∀ r, (unpack_next_thread lib items.length d 0).getLast? = some r → r.2.1 = (d.size : Int) := by
  have h := unpack_next_thread_visits lib items d 0 henc hfile (by omega)
  have h0 : ((0 : Nat) : Int) = 0 := rfl
  rw [h0] at h
  refine ⟨h, fun r hr => ?_⟩
  rw [h] at hr
  rw [expected_visits_last items 0 r hr, hsize]
  simp

/-- C1, witness: the file `1, "two", 3` of the specification. -/
theorem unpack_next_sequential_witness :
    unpack_next_thread ref_lib 3 (handle_of [1, 0xa3, 116, 119, 111, 3]) 0 =
      [(1, 1, .positive_integer 1), (1, 5, .raw [116, 119, 111]), (1, 6, .positive_integer 3)] ∧
    ∀ r, (unpack_next_thread ref_lib 3 (handle_of [1, 0xa3, 116, 119, 111, 3]) 0).getLast? = some r →
      r.2.1 = 6 :=
  unpack_next_sequential ref_lib (handle_of [1, 0xa3, 116, 119, 111, 3])
    [([1], .positive_integer 1), ([0xa3, 116, 119, 111], .raw [116, 119, 111]),
      ([3], .positive_integer 3)]
    (by
      intro cv hcv
      simp only [List.mem_cons, List.mem_singleton, List.not_mem_nil, or_false] at hcv
      rcases hcv with h | h | h
      · rw [h]; exact encodes_fixint 1 (by decide)
      · rw [h]; exact encodes_fixraw [116, 119, 111] (by decide)
      · rw [h]; exact encodes_fixint 3 (by decide))
    ⟨by decide, fun i _ => by simp [handle_of, concat_chunks]⟩
    rfl
    (by decide)

/-- C1 as stated fails: on a region of `2^31` bytes that holds one raw string
the library decodes the value and stops at offset `2^31`, the file size, and
`msgpack_modelica_unpack_next` returns `newoffset = -2^31`; so the claim
without the bound on the size does not hold. -/
theorem unpack_next_sequential_counterexample :
    (ref_lib.msgpack_unpack_next big_handle.msg big_handle.ptr big_handle.size 0).1 = true ∧
    (ref_lib.msgpack_unpack_next big_handle.msg big_handle.ptr big_handle.size 0).2.2 =
      big_handle.size ∧
    (msgpack_modelica_unpack_next ref_lib big_handle 0).1 = 1 ∧
    (msgpack_modelica_unpack_next ref_lib big_handle 0).2.1 = -2147483648 ∧
    ¬ (∀ (lib : msgpack_lib) (d : s_deserializer) (items : List (List Nat × msgpack_object)),
        (∀ cv ∈ items, encodes lib cv.1 cv.2) →
        holds_at d.ptr d.size 0 (concat_chunks items) →
        d.size = (concat_chunks items).length →
        unpack_next_thread lib items.length d 0 = expected_visits 0 items ∧
        ∀ r, (unpack_next_thread lib items.length d 0).getLast? = some r →
          r.2.1 = (d.size : Int)) := by
  refine ⟨by decide, by rfl, by decide, by decide, fun h => ?_⟩
  obtain ⟨p, hp, hz⟩ : ∃ p : List Nat, p.length = 2147483643 ∧ ∀ i, p.getD i 0 = 0 :=
    ⟨big_payload, big_payload_length, getD_replicate_zero _⟩
  have hl : (0xdb :: (be_bytes 4 p.length ++ p)).length = 2147483648 := by
    simp [be_bytes, hp]
  have e : concat_chunks [(0xdb :: (be_bytes 4 p.length ++ p), msgpack_object.raw p)]
      = 0xdb :: (be_bytes 4 p.length ++ p) := by simp [concat_chunks]
  have hh := (h ref_lib big_handle [(0xdb :: (be_bytes 4 p.length ++ p), .raw p)]
    (by
      intro cv hcv
      rw [List.mem_singleton] at hcv
      rw [hcv]
      exact encodes_raw32 p (by omega))
    (by
      rw [e, hp, be_bytes_big]
      exact big_region_holds_of p hp hz)
    (by rw [e, hl]; rfl)).1
  have h2 := congrArg (fun l => l.head?.map (fun r => r.2.1)) hh
  simp only [List.length_singleton, unpack_next_thread, expected_visits, List.head?_cons,
    Option.map_some', Option.some.injEq] at h2
  have hr := (to_int_range
    (ref_lib.msgpack_unpack_next big_handle.msg big_handle.ptr big_handle.size (to_size_t 0)).2.2).2
  simp only [msgpack_modelica_unpack_next] at h2
  rw [h2, hl] at hr
  omega

/-! ## C3, C4: typed integer unpack -/

/-- C3: `msgpack_modelica_unpack_int` signals a fatal error exactly when the
library fails to decode an object at the offset or the decoded object is
neither a positive nor a negative integer (and its behaviour is never
undefined); when the decoded object is a raw string the error is signalled
and nothing is returned. -/
theorem unpack_int_error_iff (lib : msgpack_lib) (d : s_deserializer) (offset : Int) :
    ((∃ msg, msgpack_modelica_unpack_int lib d offset = .error msg) ↔
      ((lib.msgpack_unpack_next d.msg d.ptr d.size (to_size_t offset)).1 = false ∨
       ((lib.msgpack_unpack_next d.msg d.ptr d.size (to_size_t offset)).2.1.data.type
            ≠ .MSGPACK_OBJECT_POSITIVE_INTEGER ∧
        (lib.msgpack_unpack_next d.msg d.ptr d.size (to_size_t offset)).2.1.data.type
            ≠ .MSGPACK_OBJECT_NEGATIVE_INTEGER))) ∧
    (∀ what, msgpack_modelica_unpack_int lib d offset ≠ .undefined what) ∧
    (∀ bytes, (lib.msgpack_unpack_next d.msg d.ptr d.size (to_size_t offset)).1 = true →
      (lib.msgpack_unpack_next d.msg d.ptr d.size (to_size_t offset)).2.1.data = .raw bytes →
      msgpack_modelica_unpack_int lib d offset = .error "Object is not of integer type\n" ∧
      (msgpack_modelica_unpack_int lib d offset).returned = none) := by
  unfold msgpack_modelica_unpack_int
  cases hr : (lib.msgpack_unpack_next d.msg d.ptr d.size (to_size_t offset)).1 <;>
    cases hd : (lib.msgpack_unpack_next d.msg d.ptr d.size (to_size_t offset)).2.1.data <;>
    simp [hr, hd, bool_to_int, msgpack_object.type, Outcome.returned]

/-- C3, example: the file `"two"` read with the integer-typed call. -/
theorem unpack_int_error_iff_witness :
    msgpack_modelica_unpack_int ref_lib (handle_of [0xa3, 116, 119, 111]) 0 =
      .error "Object is not of integer type\n" :=
  ((unpack_int_error_iff ref_lib (handle_of [0xa3, 116, 119, 111]) 0).2.2
    [116, 119, 111] (by decide) (by rfl)).1

theorem unpack_int_returns (lib : msgpack_lib) (d : s_deserializer) (offset n : Int)
    (hfound : (lib.msgpack_unpack_next d.msg d.ptr d.size (to_size_t offset)).1 = true)
    (hval : (lib.msgpack_unpack_next d.msg d.ptr d.size (to_size_t offset)).2.1.data.int_value
      = some n) :
    ∃ u, msgpack_modelica_unpack_int lib d offset = .ret u ∧
      u.value = to_int n ∧ u.success = 1 ∧
      u.newoffset = to_int (lib.msgpack_unpack_next d.msg d.ptr d.size (to_size_t offset)).2.2 ∧
      (-2147483648 ≤ n → n < 2147483648 → u.value = n) ∧
      ((lib.msgpack_unpack_next d.msg d.ptr d.size (to_size_t offset)).2.2 < 2147483648 →
        u.newoffset = (lib.msgpack_unpack_next d.msg d.ptr d.size (to_size_t offset)).2.2) := by
  unfold msgpack_modelica_unpack_int
  cases hd : (lib.msgpack_unpack_next d.msg d.ptr d.size (to_size_t offset)).2.1.data <;>
    simp [hd, msgpack_object.int_value] at hval
  all_goals
    subst hval
    simp only [hfound, hd, bool_to_int]
    refine ⟨_, rfl, rfl, rfl, rfl, fun h1 h2 => to_int_of_range _ h1 h2, fun h => ?_⟩
    exact to_int_of_range _ (by omega) (by omega)

/-- C4 (amended): when the object at the offset is a positive or negative
integer with value `n`, `msgpack_modelica_unpack_int` returns `n` converted to
the 32-bit `int` (which is `n` itself when `-2^31 ≤ n < 2^31`), sets `success`
to 1 and sets `newoffset` to the offset that follows the object, converted to
`int` (which is that offset itself when it is below `2^31`). -/
theorem unpack_int_value (lib : msgpack_lib) (d : s_deserializer) (offset n : Int)
    (hfound : (lib.msgpack_unpack_next d.msg d.ptr d.size (to_size_t offset)).1 = true)
    (hval : (lib.msgpack_unpack_next d.msg d.ptr d.size (to_size_t offset)).2.1.data.int_value
      = some n) :
    ∃ u, msgpack_modelica_unpack_int lib d offset = .ret u ∧
      u.value = to_int n ∧ u.success = 1 ∧
      u.newoffset = to_int (lib.msgpack_unpack_next d.msg d.ptr d.size (to_size_t offset)).2.2 ∧
      (-2147483648 ≤ n → n < 2147483648 → u.value = n) ∧
      ((lib.msgpack_unpack_next d.msg d.ptr d.size (to_size_t offset)).2.2 < 2147483648 →
        u.newoffset = (lib.msgpack_unpack_next d.msg d.ptr d.size (to_size_t offset)).2.2) :=
  unpack_int_returns lib d offset n hfound hval

/-- C4, witness: the file holding the `int 8` encoding of `-5`. -/
theorem unpack_int_value_witness :
    (ref_lib.msgpack_unpack_next (handle_of [0xd0, 0xfb]).msg (handle_of [0xd0, 0xfb]).ptr
      (handle_of [0xd0, 0xfb]).size (to_size_t 0)).1 = true ∧
    ∃ u, msgpack_modelica_unpack_int ref_lib (handle_of [0xd0, 0xfb]) 0 = .ret u ∧
      u.value = -5 ∧ u.success = 1 ∧ u.newoffset = 2 :=
  ⟨by decide, by
    obtain ⟨u, h1, h2, h3, h4, h5, h6⟩ :=
      unpack_int_value ref_lib (handle_of [0xd0, 0xfb]) 0 (-5) (by decide) (by rfl)
    exact ⟨u, h1, h5 (by decide) (by decide), h3, h6 (by decide)⟩⟩

/-- C4 as stated fails: the file holds the `uint 32` encoding of `2^31`; the
library decodes the positive integer `2^31` and `msgpack_modelica_unpack_int`
returns `-2^31`. -/
theorem unpack_int_value_counterexample :
    (ref_lib.msgpack_unpack_next (handle_of [0xce, 0x80, 0, 0, 0]).msg
      (handle_of [0xce, 0x80, 0, 0, 0]).ptr (handle_of [0xce, 0x80, 0, 0, 0]).size
      (to_size_t 0)).1 = true ∧
    (ref_lib.msgpack_unpack_next (handle_of [0xce, 0x80, 0, 0, 0]).msg
      (handle_of [0xce, 0x80, 0, 0, 0]).ptr (handle_of [0xce, 0x80, 0, 0, 0]).size
      (to_size_t 0)).2.1.data.int_value = some 2147483648 ∧
    (msgpack_modelica_unpack_int ref_lib (handle_of [0xce, 0x80, 0, 0, 0]) 0).returned.map
      (fun u => u.value) = some (-2147483648) := by
  refine ⟨by decide, by decide, by decide⟩

/-! ## C5: typed string unpack -/

theorem memcpy_fresh (bytes : List Nat) :
    memcpy (List.replicate bytes.length 0) bytes bytes.length = bytes := by
  simp [memcpy]

theorem c_string_of_no_zero (s : List Nat) (h : ∀ b ∈ s, b ≠ 0) : c_string s = s := by
  unfold c_string
  rw [List.takeWhile_eq_self_iff]
  intro b hb
  simpa using h b hb

/-- C5 (amended): `msgpack_modelica_unpack_string` signals a fatal error if
the library fails to decode an object at the offset or the decoded object is
not of raw type, and also when the host allocation fails.  Otherwise it copies
the payload into a fresh host string and returns the bare pointer: the string
the host reads there is the payload up to its first zero byte, which is
exactly the payload (same length, same bytes, same order) when the payload
holds no zero byte; `success` is 1 and `newoffset` is the offset that follows
the object converted to `int`, which is that offset itself when it is below
`2^31`. -/
theorem unpack_string_spec (lib : msgpack_lib) (d : s_deserializer) (offset : Int)
    (alloc_ok : Bool) :
    (((lib.msgpack_unpack_next d.msg d.ptr d.size (to_size_t offset)).1 = false ∨
      (lib.msgpack_unpack_next d.msg d.ptr d.size (to_size_t offset)).2.1.data.type
        ≠ .MSGPACK_OBJECT_RAW) →
      ∃ msg, msgpack_modelica_unpack_string lib d offset alloc_ok = .error msg) ∧
    (∀ bytes, (lib.msgpack_unpack_next d.msg d.ptr d.size (to_size_t offset)).1 = true →
      (lib.msgpack_unpack_next d.msg d.ptr d.size (to_size_t offset)).2.1.data = .raw bytes →
      (alloc_ok = false →
        msgpack_modelica_unpack_string lib d offset alloc_ok = .error host_allocation_error) ∧
      (alloc_ok = true →
        ∃ u, msgpack_modelica_unpack_string lib d offset alloc_ok = .ret u ∧
          u.value = c_string bytes ∧
          ((∀ b ∈ bytes, b ≠ 0) → u.value = bytes ∧ u.value.length = bytes.length) ∧
          u.success = 1 ∧
          u.newoffset = to_int (lib.msgpack_unpack_next d.msg d.ptr d.size (to_size_t offset)).2.2 ∧
          ((lib.msgpack_unpack_next d.msg d.ptr d.size (to_size_t offset)).2.2 < 2147483648 →
            u.newoffset
              = (lib.msgpack_unpack_next d.msg d.ptr d.size (to_size_t offset)).2.2))) := by
  unfold msgpack_modelica_unpack_string
  constructor
  · cases hr : (lib.msgpack_unpack_next d.msg d.ptr d.size (to_size_t offset)).1 <;>
      cases hd : (lib.msgpack_unpack_next d.msg d.ptr d.size (to_size_t offset)).2.1.data <;>
      simp [hr, hd, bool_to_int, msgpack_object.type]
  · intro bytes hr hd
    refine ⟨fun ha => ?_, fun ha => ?_⟩
    · subst ha
      simp [hr, hd, bool_to_int, ModelicaAllocateString]
    · subst ha
      simp only [hr, hd, bool_to_int, ModelicaAllocateString, if_true, memcpy_fresh]
      refine ⟨_, rfl, rfl, fun h0 => ?_, rfl, rfl, fun h => ?_⟩
      · rw [c_string_of_no_zero bytes h0]; exact ⟨rfl, rfl⟩
      · exact to_int_of_range _ (by omega) (by omega)

/-- C5, example: the string `"two"` that follows the integer 1 in the file. -/
theorem unpack_string_spec_witness :
    ∃ u, msgpack_modelica_unpack_string ref_lib (handle_of [1, 0xa3, 116, 119, 111, 3]) 1 true
        = .ret u ∧
      u.value = [116, 119, 111] ∧ u.success = 1 ∧ u.newoffset = 5 := by
  obtain ⟨u, h1, _, h3, h4, _, h6⟩ :=
    ((unpack_string_spec ref_lib (handle_of [1, 0xa3, 116, 119, 111, 3]) 1 true).2
      [116, 119, 111] (by decide) (by rfl)).2 rfl
  exact ⟨u, h1, (h3 (by decide)).1, h4, h6 (by decide)⟩

/-- C5 as stated fails, in three ways.  The file `a3 61 00 62` holds a raw
string of three bytes with a zero byte in the middle: the string the host
reads at the returned pointer is the one byte `61`.  On the region of `2^31`
bytes that holds one raw string the object ends at offset `2^31` and
`newoffset` is `-2^31`.  And when the host allocation fails the call signals
an error although the decode succeeded on a raw object. -/
theorem unpack_string_spec_counterexample :
    ((ref_lib.msgpack_unpack_next (handle_of [0xa3, 0x61, 0, 0x62]).msg
        (handle_of [0xa3, 0x61, 0, 0x62]).ptr (handle_of [0xa3, 0x61, 0, 0x62]).size
        (to_size_t 0)).1 = true ∧
      (ref_lib.msgpack_unpack_next (handle_of [0xa3, 0x61, 0, 0x62]).msg
        (handle_of [0xa3, 0x61, 0, 0x62]).ptr (handle_of [0xa3, 0x61, 0, 0x62]).size
        (to_size_t 0)).2.1.data = .raw [0x61, 0, 0x62] ∧
      (msgpack_modelica_unpack_string ref_lib (handle_of [0xa3, 0x61, 0, 0x62]) 0 true).returned.map
        (fun u => u.value) = some [0x61]) ∧
    ((ref_lib.msgpack_unpack_next big_handle.msg big_handle.ptr big_handle.size (to_size_t 0)).1
        = true ∧
      (ref_lib.msgpack_unpack_next big_handle.msg big_handle.ptr big_handle.size
        (to_size_t 0)).2.1.data.type = msgpack_object_type.MSGPACK_OBJECT_RAW ∧
      (ref_lib.msgpack_unpack_next big_handle.msg big_handle.ptr big_handle.size (to_size_t 0)).2.2
        = 2147483648 ∧
      (msgpack_modelica_unpack_string ref_lib big_handle 0 true).returned.map
        (fun u => u.newoffset) = some (-2147483648)) ∧
    ((ref_lib.msgpack_unpack_next (handle_of [0xa3, 116, 119, 111]).msg
        (handle_of [0xa3, 116, 119, 111]).ptr (handle_of [0xa3, 116, 119, 111]).size
        (to_size_t 0)).2.1.data = .raw [116, 119, 111] ∧
      msgpack_modelica_unpack_string ref_lib (handle_of [0xa3, 116, 119, 111]) 0 false
        = .error host_allocation_error) := by
  refine ⟨⟨by decide, by rfl, by decide⟩, ⟨by decide, by decide, by rfl, by decide⟩,
    ⟨by rfl, by rfl⟩⟩

/-! ## C9: deferred integer read -/

theorem to_int_via_i64 (u64 : Nat) :
    (msgpack_object.positive_integer u64).via_i64.map to_int = some (to_int u64) := by
  simp only [msgpack_object.via_i64, Option.map_some', Option.some.injEq]
  split <;> unfold to_int <;> omega

/-- C9 (amended): after a decode (by `msgpack_modelica_unpack_next` or by
`msgpack_modelica_unpack_int`) that succeeded on a positive or negative
integer object with value `n`, `msgpack_modelica_get_unpacked_int` returns `n`
converted to the 32-bit `int`, which is the value `msgpack_modelica_unpack_int`
returns for that object and is `n` itself when `-2^31 ≤ n < 2^31`; it reads the
handle only. -/
theorem get_unpacked_int_agrees (lib : msgpack_lib) (d : s_deserializer) (offset n : Int)
    (hfound : (lib.msgpack_unpack_next d.msg d.ptr d.size (to_size_t offset)).1 = true)
    (hval : (lib.msgpack_unpack_next d.msg d.ptr d.size (to_size_t offset)).2.1.data.int_value
      = some n) :
    msgpack_modelica_get_unpacked_int (msgpack_modelica_unpack_next lib d offset).2.2
      = some (to_int n) ∧
    (∃ u, msgpack_modelica_unpack_int lib d offset = .ret u ∧ u.value = to_int n ∧
      msgpack_modelica_get_unpacked_int u.handle = some u.value) ∧
    (-2147483648 ≤ n → n < 2147483648 →
      msgpack_modelica_get_unpacked_int (msgpack_modelica_unpack_next lib d offset).2.2 = some n) := by
  have key : msgpack_modelica_get_unpacked_int (msgpack_modelica_unpack_next lib d offset).2.2
      = some (to_int n) := by
    unfold msgpack_modelica_get_unpacked_int msgpack_modelica_unpack_next
    cases hd : (lib.msgpack_unpack_next d.msg d.ptr d.size (to_size_t offset)).2.1.data <;>
      simp [hd, msgpack_object.int_value] at hval
    · subst hval; exact to_int_via_i64 _
    · subst hval; simp [msgpack_object.via_i64]
  refine ⟨key, ?_, fun h1 h2 => by rw [key, to_int_of_range n h1 h2]⟩
  obtain ⟨u, h1, h2, _⟩ := unpack_int_returns lib d offset n hfound hval
  refine ⟨u, h1, h2, ?_⟩
  rw [h2, ← key]
  unfold msgpack_modelica_unpack_int at h1
  unfold msgpack_modelica_unpack_next
  cases hd : (lib.msgpack_unpack_next d.msg d.ptr d.size (to_size_t offset)).2.1.data <;>
    simp [hd, hfound, bool_to_int] at h1 <;> rw [← h1]

/-- C9, witness: the file holding the `int 8` encoding of `-5`. -/
theorem get_unpacked_int_agrees_witness :
    (ref_lib.msgpack_unpack_next (handle_of [0xd0, 0xfb]).msg (handle_of [0xd0, 0xfb]).ptr
      (handle_of [0xd0, 0xfb]).size (to_size_t 0)).1 = true ∧
    msgpack_modelica_get_unpacked_int
      (msgpack_modelica_unpack_next ref_lib (handle_of [0xd0, 0xfb]) 0).2.2 = some (-5) :=
  ⟨by decide,
    (get_unpacked_int_agrees ref_lib (handle_of [0xd0, 0xfb]) 0 (-5) (by decide) (by rfl)).2.2
      (by decide) (by decide)⟩

/-- C9 as stated fails: after decoding the `uint 32` encoding of `2^31` the
deferred read returns `-2^31`. -/
theorem get_unpacked_int_agrees_counterexample :
    (msgpack_modelica_unpack_next ref_lib (handle_of [0xce, 0x80, 0, 0, 0]) 0).1 = 1 ∧
    (msgpack_modelica_unpack_next ref_lib (handle_of [0xce, 0x80, 0, 0, 0]) 0).2.2.msg.data.int_value
      = some 2147483648 ∧
    msgpack_modelica_get_unpacked_int
      (msgpack_modelica_unpack_next ref_lib (handle_of [0xce, 0x80, 0, 0, 0]) 0).2.2
      = some (-2147483648) := by
  refine ⟨by decide, by decide, by decide⟩

/-! ## C10: packer adapters -/

/-- C10 (amended): `msgpack_modelica_pack_map` and `msgpack_modelica_pack_array`
return the library's result unchanged.  `msgpack_modelica_pack_string` asks
for a raw header of length `strlen(str)`; when the header fails (any non-zero
result) it returns 1 and the body is not attempted; otherwise it asks for the
body of exactly these `strlen(str)` bytes and returns that result unchanged.
So each adapter returns 0 exactly when the library calls it made returned 0. -/
theorem pack_adapters_spec {P : Type} (lib : msgpack_pack_lib P) (packer : P) (len : Int)
    (str : List Nat) :
    msgpack_modelica_pack_map lib packer len = lib.msgpack_pack_map packer len ∧
    msgpack_modelica_pack_array lib packer len = lib.msgpack_pack_array packer len ∧
    ((lib.msgpack_pack_raw packer (strlen str)).1 ≠ 0 →
      msgpack_modelica_pack_string lib packer str = (1, (lib.msgpack_pack_raw packer (strlen str)).2)) ∧
    ((lib.msgpack_pack_raw packer (strlen str)).1 = 0 →
      msgpack_modelica_pack_string lib packer str =
        lib.msgpack_pack_raw_body (lib.msgpack_pack_raw packer (strlen str)).2 str (strlen str)) ∧
    ((msgpack_modelica_pack_string lib packer str).1 = 0 ↔
      ((lib.msgpack_pack_raw packer (strlen str)).1 = 0 ∧
       (lib.msgpack_pack_raw_body (lib.msgpack_pack_raw packer (strlen str)).2 str (strlen str)).1
         = 0)) := by
  refine ⟨rfl, rfl, fun h => ?_, fun h => ?_, ?_⟩
  · simp [msgpack_modelica_pack_string, h]
  · simp [msgpack_modelica_pack_string, h]
  · by_cases h : (lib.msgpack_pack_raw packer (strlen str)).1 = 0 <;>
      simp [msgpack_modelica_pack_string, h]

/-- C10, example: packing `"a"` into an empty buffer that can grow. -/
theorem pack_adapters_spec_witness :
    msgpack_modelica_pack_string ref_pack_lib ⟨[], 16⟩ [97] = (0, ⟨[0xa1, 97], 16⟩) :=
  ((pack_adapters_spec ref_pack_lib ⟨[], 16⟩ 0 [97]).2.2.2.1 (by decide)).trans (by rfl)

/-- C10 as stated fails: with a buffer that cannot grow the library's raw
header fails with `-1`, and `msgpack_modelica_pack_string` returns 1, not the
library's value. -/
theorem pack_adapters_spec_counterexample :
    (ref_pack_lib.msgpack_pack_raw ⟨[], 0⟩ (strlen [97])).1 = -1 ∧
    (msgpack_modelica_pack_string ref_pack_lib ⟨[], 0⟩ [97]).1 = 1 ∧
    (msgpack_modelica_pack_string ref_pack_lib ⟨[], 0⟩ [97]).2.data = [] := by
  refine ⟨by decide, by decide, by decide⟩

/-! ## C6, C8: the string-stream sink -/

theorem append_all_fout (ts : List (List Nat)) :
    ∀ st : s_stringstream, (append_all st ts).fout = st.fout ++ ts.flatten := by
  induction ts with
  | nil => intro st; simp [append_all]
  | cons t rest ih =>
    intro st
    have h := ih (msgpack_modelica_stringstream_append st t)
    simp only [append_all, List.foldl_cons] at h ⊢
    rw [h]
    simp [msgpack_modelica_stringstream_append]

theorem stringstream_get_ok (st : s_stringstream) :
    msgpack_modelica_stringstream_get st true = .ret (st.fout, msgpack_modelica_new_stringstream) := by
  simp [msgpack_modelica_stringstream_get, ModelicaAllocateStringWithErrorReturn, memcpy,
    memcpy_to, msgpack_modelica_new_stringstream]

/-- C6: texts `ts` appended to a sink since it was created, or since the
previous `msgpack_modelica_stringstream_get` on it, come back from the next get
(with a successful allocation) as their concatenation, and that get leaves the
sink empty and usable: texts `us` appended afterwards come back as the
concatenation of `us` alone. -/
theorem stringstream_accumulate (st0 : s_stringstream) (ts us : List (List Nat)) :
    msgpack_modelica_stringstream_get (append_all msgpack_modelica_new_stringstream ts) true
      = .ret (ts.flatten, msgpack_modelica_new_stringstream) ∧
    (∀ r st1, msgpack_modelica_stringstream_get st0 true = .ret (r, st1) →
      msgpack_modelica_stringstream_get (append_all st1 ts) true
        = .ret (ts.flatten, msgpack_modelica_new_stringstream)) ∧
    (∀ r st1, msgpack_modelica_stringstream_get (append_all msgpack_modelica_new_stringstream ts) true
        = .ret (r, st1) →
      st1.fout = [] ∧
      msgpack_modelica_stringstream_get (append_all st1 us) true
        = .ret (us.flatten, msgpack_modelica_new_stringstream)) := by
  have fresh : ∀ xs : List (List Nat),
      msgpack_modelica_stringstream_get (append_all msgpack_modelica_new_stringstream xs) true
        = .ret (xs.flatten, msgpack_modelica_new_stringstream) := by
    intro xs
    rw [stringstream_get_ok, append_all_fout]
    simp [msgpack_modelica_new_stringstream]
  refine ⟨fresh ts, fun r st1 h => ?_, fun r st1 h => ?_⟩
  · rw [stringstream_get_ok] at h
    injection h with h
    injection h with _ h2
    rw [← h2]; exact fresh ts
  · rw [stringstream_get_ok] at h
    injection h with h
    injection h with _ h2
    rw [← h2]; exact ⟨rfl, fresh us⟩

/-- C6, example: append `"a"`, append `"b"`, get yields `"ab"`; then append
`"c"`, get yields `"c"`. -/
theorem stringstream_accumulate_witness :
    msgpack_modelica_stringstream_get
      (msgpack_modelica_stringstream_append
        (msgpack_modelica_stringstream_append msgpack_modelica_new_stringstream (ascii "a"))
        (ascii "b")) true
      = .ret (ascii "ab", msgpack_modelica_new_stringstream) ∧
    msgpack_modelica_stringstream_get
      (msgpack_modelica_stringstream_append msgpack_modelica_new_stringstream (ascii "c")) true
      = .ret (ascii "c", msgpack_modelica_new_stringstream) :=
  ⟨(stringstream_accumulate msgpack_modelica_new_stringstream [ascii "a", ascii "b"] []).1,
   ((stringstream_accumulate msgpack_modelica_new_stringstream [ascii "a", ascii "b"]
      [ascii "c"]).2.2 _ _ (stringstream_get_ok _)).2⟩

/-- C8, the failing input: the sink holds `"a"` and the host allocation
fails.  `memcpy` copies one byte to the null result before the result is
tested, so the call has undefined behaviour instead of signalling the
recoverable error. -/
theorem stringstream_get_null_write :
    msgpack_modelica_stringstream_get
      (msgpack_modelica_stringstream_append msgpack_modelica_new_stringstream (ascii "a")) false
      = .undefined "memcpy writes through the null pointer" := by
  rfl

/-- The string-stream retrieval by cases: a successful allocation gives no
error and a fresh empty sink; a failed allocation never gives the recoverable
error, because `memcpy` is called with the null result before the result is
tested: the behaviour is undefined for every sink, and on a sink that holds
text the call writes through the null pointer. -/
theorem stringstream_get_policy (st : s_stringstream) :
    msgpack_modelica_stringstream_get st true = .ret (st.fout, msgpack_modelica_new_stringstream) ∧
    (∃ what, msgpack_modelica_stringstream_get st false = .undefined what) ∧
    (st.fout ≠ [] → msgpack_modelica_stringstream_get st false
      = .undefined "memcpy writes through the null pointer") := by
  refine ⟨stringstream_get_ok st, ?_, fun h => ?_⟩
  · by_cases h : st.fout = [] <;>
      simp [msgpack_modelica_stringstream_get, ModelicaAllocateStringWithErrorReturn, memcpy_to, h]
  · simp [msgpack_modelica_stringstream_get, ModelicaAllocateStringWithErrorReturn, memcpy_to, h]

/-! ## C7: the file writer -/

/-- C7, the failing input: a buffer of zero bytes.  The file is opened and
the device accepts writes, yet `fwrite` of an item of size zero returns 0 and
the function signals the write error. -/
theorem omc_sbuffer_to_file_empty_buffer (data : List Nat) (io_ok : Bool) :
    omc_sbuffer_to_file ⟨0, data⟩ true io_ok = .error "Failed to write to file %s" := by
  simp [omc_sbuffer_to_file, fwrite]

/-- The file writer on a buffer that is not empty: a fatal error when the open
fails or the write fails, and otherwise no error and the stream holds the
`size` bytes of the buffer. -/
theorem omc_sbuffer_to_file_spec (buffer : msgpack_sbuffer) (fopen_ok io_ok : Bool)
    (hsize : buffer.size ≠ 0) :
    (fopen_ok = false → omc_sbuffer_to_file buffer fopen_ok io_ok
      = .error "Failed to open file %s for writing") ∧
    (fopen_ok = true → io_ok = false → omc_sbuffer_to_file buffer fopen_ok io_ok
      = .error "Failed to write to file %s") ∧
    (fopen_ok = true → io_ok = true → omc_sbuffer_to_file buffer fopen_ok io_ok
      = .ret (buffer.data.take buffer.size)) := by
  refine ⟨fun h => ?_, fun h1 h2 => ?_, fun h1 h2 => ?_⟩ <;>
    simp_all [omc_sbuffer_to_file, fwrite]

/-- The file writer at a concrete buffer of seven bytes. -/
theorem omc_sbuffer_to_file_spec_witness :
    omc_sbuffer_to_file ⟨7, [0x82, 1, 0xa1, 97, 2, 0xa1, 98]⟩ true true
      = .ret [0x82, 1, 0xa1, 97, 2, 0xa1, 98] :=
  (omc_sbuffer_to_file_spec ⟨7, [0x82, 1, 0xa1, 97, 2, 0xa1, 98]⟩ true true (by decide)).2.2
    rfl rfl

/-! ## C2: the whole-file dump -/

/-- C2, the failing input: the empty file (zero encoded values).  The open
and `fstat` succeed, the mapping of length zero is refused, and the function
signals the fatal `mmap` error instead of returning the empty text. -/
theorem deserialize_empty_file (lib : msgpack_lib) (fuel : Nat) (fd : Int) (bytes : Nat → Nat)
    (mmap_ok alloc_ok : Bool) :
    msgpack_modelica_deserialize lib fuel ⟨some (fd, ⟨0, bytes⟩), true, mmap_ok⟩ alloc_ok
      = some (.error "mmap(%s) failed: %s\n") := by
  simp [msgpack_modelica_deserialize, mmap]

theorem unpack_print_loop_dump (lib : msgpack_lib) (ptr : Nat → Nat) (size : Nat)
    (hstop : stops_at_end lib) (items : List (List Nat × msgpack_object)) :
    ∀ (fuel off : Nat) (fout : List Nat) (msg : msgpack_unpacked),
      (∀ cv ∈ items, encodes lib cv.1 cv.2) →
      holds_at ptr size off (concat_chunks items) →
      off + (concat_chunks items).length = size →
      items.length < fuel →
      unpack_print_loop lib ptr size fuel fout msg off = some (fout ++ dump_text lib items) := by
  induction items with
  | nil =>
    intro fuel off fout msg _ _ hsize hfuel
    obtain ⟨k, rfl⟩ : ∃ k, fuel = k + 1 := ⟨fuel - 1, by simp at hfuel; omega⟩
    have hend := hstop msg ptr size off (by simp [concat_chunks] at hsize; omega)
    simp [unpack_print_loop, hend, dump_text]
  | cons cv rest ih =>
    intro fuel off fout msg henc hh hsize hfuel
    obtain ⟨c, v⟩ := cv
    obtain ⟨k, rfl⟩ : ∃ k, fuel = k + 1 := ⟨fuel - 1, by simp at hfuel; omega⟩
    have hcat : concat_chunks ((c, v) :: rest) = c ++ concat_chunks rest := by
      simp [concat_chunks]
    rw [hcat] at hh hsize
    rw [List.length_append] at hsize
    obtain ⟨hc, hrest⟩ := holds_at_append _ _ _ _ _ hh
    obtain ⟨r1, r2, r3⟩ := henc (c, v) (List.mem_cons_self _ _) msg ptr size off hc
    simp only [unpack_print_loop, r1, r2, r3, if_true]
    rw [ih k (off + c.length) _ _ (fun cv hcv => henc cv (List.mem_cons_of_mem _ hcv)) hrest
      (by omega) (by simp at hfuel; omega)]
    simp [dump_text]

theorem ref_lib_stops_at_end : stops_at_end ref_lib := by
  intro result data len off h
  simp [ref_lib, ref_unpack_next, h]

/-- The whole-file dump of a file that is not empty: when the file is made of
the encodings of `v1 .. vn`, one after another, the system calls and the host
allocation succeed and the loop is given more than `n` iterations,
`msgpack_modelica_deserialize` signals no error and returns a pointer to the
rendering of each value followed by a newline, in encoding order; the string
the host reads there is this text up to its first zero byte, hence the whole
text when no rendering holds a zero byte. -/
theorem deserialize_dump (lib : msgpack_lib) (fd : Int) (f : os_file)
    (items : List (List Nat × msgpack_object)) (fuel : Nat)
    (hstop : stops_at_end lib)
    (henc : ∀ cv ∈ items, encodes lib cv.1 cv.2)
    (hfile : holds_at f.bytes f.size 0 (concat_chunks items))
    (hsize : f.size = (concat_chunks items).length)
    (hne : f.size ≠ 0)
    (hfuel : items.length < fuel) :
    msgpack_modelica_deserialize lib fuel ⟨some (fd, f), true, true⟩ true
      = some (.ret (c_string (dump_text lib items))) ∧
    ((∀ b ∈ dump_text lib items, b ≠ 0) →
      msgpack_modelica_deserialize lib fuel ⟨some (fd, f), true, true⟩ true
        = some (.ret (dump_text lib items))) := by
  have h := unpack_print_loop_dump lib f.bytes f.size hstop items fuel 0 [] msgpack_unpacked_init
    henc hfile (by omega) hfuel
  have key : msgpack_modelica_deserialize lib fuel ⟨some (fd, f), true, true⟩ true
      = some (.ret (c_string (dump_text lib items))) := by
    simp only [msgpack_modelica_deserialize, mmap, hne, if_false, unpack_print]
    simp [h, ModelicaAllocateString, memcpy_fresh]
  exact ⟨key, fun h0 => by rw [key, c_string_of_no_zero _ h0]⟩

/-- The whole-file dump of the file `1, "two", 3`. -/
theorem deserialize_dump_witness :
    msgpack_modelica_deserialize ref_lib 4
        ⟨some (3, file_of [1, 0xa3, 116, 119, 111, 3]), true, true⟩ true
      = some (.ret (ascii "1\n\"two\"\n3\n")) :=
  (deserialize_dump ref_lib 3 (file_of [1, 0xa3, 116, 119, 111, 3])
    [([1], .positive_integer 1), ([0xa3, 116, 119, 111], .raw [116, 119, 111]),
      ([3], .positive_integer 3)] 4
    ref_lib_stops_at_end
    (by
      intro cv hcv
      simp only [List.mem_cons, List.mem_singleton, List.not_mem_nil, or_false] at hcv
      rcases hcv with h | h | h
      · rw [h]; exact encodes_fixint 1 (by decide)
      · rw [h]; exact encodes_fixraw [116, 119, 111] (by decide)
      · rw [h]; exact encodes_fixint 3 (by decide))
    ⟨by decide, fun i _ => by simp [file_of, concat_chunks]⟩
    rfl
    (by decide)
    (by decide)).1

/-- The round trip of the specification: the map `1 => "a", 2 => "b"` is
packed, the buffer is written with `omc_sbuffer_to_file`, and the whole-file
dump of these bytes is the text of the map followed by a newline. -/
theorem roundtrip_map :
    (msgpack_modelica_pack_string ref_pack_lib
      (ref_pack_int
        (msgpack_modelica_pack_string ref_pack_lib
          (ref_pack_int (msgpack_modelica_pack_map ref_pack_lib ⟨[], 64⟩ 2).2 1).2 (ascii "a")).2
        2).2 (ascii "b")).2.data = [0x82, 1, 0xa1, 97, 2, 0xa1, 98] ∧
    omc_sbuffer_to_file ⟨7, [0x82, 1, 0xa1, 97, 2, 0xa1, 98]⟩ true true
      = .ret [0x82, 1, 0xa1, 97, 2, 0xa1, 98] ∧
    msgpack_modelica_deserialize ref_lib 2
        ⟨some (3, file_of [0x82, 1, 0xa1, 97, 2, 0xa1, 98]), true, true⟩ true
      = some (.ret (ascii "\x7b1=>\"a\", 2=>\"b\"\x7d\n")) := by
  refine ⟨by decide, by rfl, by rfl⟩

end MsgpackModelica
